import Mathlib

/-!
Verification development for the meeting-minutes processing pipeline.

The JavaScript source is shallowly embedded: pure string manipulation is
modelled over `List Char` (one element per UTF-16 code unit; every string
constant in the source is BMP-only, so code units, code points and
characters coincide), records and queue messages are plain structures,
and each stateful worker step is a pure function from its inputs and the
outcomes of its external calls (S3, DynamoDB, SQS, Bedrock, ASR services)
to the list of side effects it issues.  External platform primitives
(JSON.parse, decodeURIComponent, the HTTP clients) enter as oracle
parameters; everything computed by the repository itself is translated
directly from the source.
-/

namespace MM

/-! ## List-of-characters utilities mirroring the JavaScript string primitives -/

/-- Mirrors `needle`-at-front comparison used by `String.prototype.startsWith`. -/
def startsWithL : List Char → List Char → Bool
  | [], _ => true
  | _ :: _, [] => false
  | a :: as, b :: bs => a == b && startsWithL as bs

/-- Mirrors `String.prototype.includes` (substring containment). -/
def containsSub (needle : List Char) : List Char → Bool
  | [] => needle.isEmpty
  | c :: t => startsWithL needle (c :: t) || containsSub needle t

/-- Splits at the first occurrence of `sep`: returns the part before the
first occurrence and the remainder after the separator.  When `sep` does
not occur the whole input is returned as the first component. -/
def breakOnFirst (sep : List Char) : List Char → List Char × List Char
  | [] => ([], [])
  | c :: t =>
    if startsWithL sep (c :: t) then ([], (c :: t).drop sep.length)
    else
      let r := breakOnFirst sep t
      (c :: r.1, r.2)

/-- Mirrors `text.split(sep)[0]` and `text.split(sep)[1]` for a separator
that occurs in `text`: component one is everything before the first
occurrence, component two is everything between the first and the second
occurrence (or the rest when the separator occurs only once). -/
def jsSplitParts01 (sep s : List Char) : List Char × List Char :=
  let b := breakOnFirst sep s
  let rest := b.2
  (b.1, if containsSub sep rest then (breakOnFirst sep rest).1 else rest)

/-! ## services/s3.js -/

/-- Mirrors `uploadFile` (services/s3.js): the object is written at
`PREFIX + "/" + key` and that full key is returned. -/
def uploadFullKey (pfx key : List Char) : List Char := pfx ++ '/' :: key

/-- Mirrors the key resolution inside `getFile` (services/s3.js):
`key.startsWith(PREFIX) ? key : PREFIX + "/" + key`. -/
def resolveGetKey (pfx key : List Char) : List Char :=
  if startsWithL pfx key then key else pfx ++ '/' :: key

/-! ## services/bedrock.js — transcript truncation -/

def awsLabel : List Char := "[AWS Transcribe 转录]".toList
def whisperLabel : List Char := "[Whisper 转录]".toList
def funasrLabel : List Char := "[FunASR 转录（含说话人标签）]".toList
def nlnl : List Char := "\n\n".toList

/-- Mirrors `truncateTranscript` (services/bedrock.js): FunASR-only texts
keep 60000 characters after the FunASR label, dual-track texts are split
at the Whisper label and each side is trimmed to 60000 characters, and
every other text is trimmed to 120000 characters. -/
def truncateTranscript (text : List Char) : List Char :=
  if containsSub funasrLabel text && !(containsSub awsLabel text) then
    let b := breakOnFirst funasrLabel text
    b.1 ++ funasrLabel ++ b.2.take 60000
  else if containsSub awsLabel text && containsSub whisperLabel text then
    let p := jsSplitParts01 whisperLabel text
    let transcribePart := p.1.take 60000
    let whisperPart := whisperLabel ++ p.2.take (60000 - whisperLabel.length)
    transcribePart ++ nlnl ++ whisperPart
  else
    text.take 120000

/-! ## report-worker.js — JSON extraction from the LLM response -/

def lbrace : Char := Char.ofNat 123
def rbrace : Char := Char.ofNat 125

/-- First index of `c`, mirroring `String.prototype.indexOf`. -/
def idxOfChar (c : Char) : List Char → Option Nat
  | [] => none
  | x :: t => if x == c then some 0 else (idxOfChar c t).map (· + 1)

/-- Last index of `c`, mirroring `String.prototype.lastIndexOf`. -/
def lastIdxOfChar (c : Char) : List Char → Option Nat
  | [] => none
  | x :: t =>
    match lastIdxOfChar c t with
    | some i => some (i + 1)
    | none => if x == c then some 0 else none

/-- Single-character membership, mirroring `String.prototype.includes`
for a one-character needle. -/
def containsChar (c : Char) : List Char → Bool
  | [] => false
  | x :: t => x == c || containsChar c t

/-- Mirrors `responseText.match(/\x7b[\s\S]*\x7d/)` in the report worker:
the greedy regex matches from the first opening brace to the last closing
brace of the whole string, provided the first opening brace lies strictly
before the last closing brace; otherwise there is no match. -/
def jsonExtract (s : List Char) : Option (List Char) :=
  match idxOfChar lbrace s, lastIdxOfChar rbrace s with
  | some i, some j => if i < j then some ((s.drop i).take (j + 1 - i)) else none
  | _, _ => none

/-- Whether the string has an opening brace strictly before some closing
brace, i.e. whether the regex above can match at all. -/
def hasBracePair : List Char → Bool
  | [] => false
  | c :: t => (c == lbrace && containsChar rbrace t) || hasBracePair t

/-! ## Data model

MeetingRecord and the DynamoDB/SQS calls issued by the pipeline, with one
structure field per attribute the source reads or writes.  Absent
attributes are `none`. -/

structure MeetingRec where
  meetingId : String
  createdAt : String
  status : String
  stage : Option String := none
  title : Option String := none
  filename : Option String := none
  meetingType : Option String := none
  s3Key : Option String := none
  recipientEmails : List String := []
  errorMessage : Option String := none
deriving DecidableEq

/-- One DynamoDB `UpdateCommand`: the composite key, the attribute
assignments of the SET clause in source order, whether the expression
REMOVEs `errorMessage`, and the `ConditionExpression` if any. -/
structure UpdateCall where
  keyMeetingId : String
  keyCreatedAt : Option String
  sets : List (String × String)
  removesErrorMessage : Bool := false
  condition : Option String := none
deriving DecidableEq

/-- TranscribeDone message sent to the report queue. -/
structure TranscribeDone where
  meetingId : String
  transcribeKey : Option String
  whisperKey : Option String
  funasrKey : Option String
  meetingType : String
  createdAt : String
deriving DecidableEq

/-- JavaScript falsiness of an optional string field
(`undefined`, `null` and `""` are falsy). -/
def jsFalsy : Option String → Bool
  | none => true
  | some s => s == ""

/-! ## workers/transcription-worker.js -/

/-- Mirrors `String.prototype.endsWith`. -/
def endsWithL (sfx s : List Char) : Bool :=
  startsWithL sfx.reverse s.reverse

/-- Mirrors `String.prototype.split` with a one-character separator:
every separator opens a new (possibly empty) segment. -/
def splitCharL (sep : Char) : List Char → List (List Char)
  | [] => [[]]
  | c :: t =>
    let r := splitCharL sep t
    if c == sep then [] :: r
    else (c :: r.headD []) :: r.tail

/-- Mirrors `parseMeetingTypeFromFilename`. -/
def parseMeetingTypeFromFilename (filename : String) : String :=
  if startsWithL "weekly__".toList filename.data then "weekly"
  else if startsWithL "tech__".toList filename.data then "tech"
  else "general"

/-- The two shapes of a NewJob message body: an S3 bucket-notification
envelope carrying `Records[0].s3.object.key`, or the internal shape sent
by the upload and retry routes. -/
inductive NewJobBody where
  | s3Event (objectKey : String)
  | internal (meetingId : String) (s3Key : Option String) (filename : Option String)
      (meetingType : Option String)
deriving DecidableEq

structure ParsedMsg where
  meetingId : String
  s3Key : Option String
  filename : Option String
  meetingType : String
  isS3Event : Bool
deriving DecidableEq

/-- Mirrors `parseMessage`.  `uriDecode` stands for the platform
primitive `decodeURIComponent`; `nowMs` is `Date.now()`. -/
def parseMessage (uriDecode : String → String) (nowMs : Nat) : NewJobBody → ParsedMsg
  | .s3Event rawKey =>
    let s3Key := uriDecode ⟨rawKey.data.map (fun c => if c == '+' then ' ' else c)⟩
    let filename : String := ⟨(splitCharL '/' s3Key.data).getLastD s3Key.data⟩
    { meetingId := "meeting-" ++ toString nowMs,
      s3Key := some s3Key,
      filename := some filename,
      meetingType := parseMeetingTypeFromFilename filename,
      isS3Event := true }
  | .internal mid key fn mt =>
    { meetingId := mid, s3Key := key, filename := fn,
      meetingType := match mt with
        | none => "general"
        | some m => if m == "" then "general" else m,
      isS3Event := false }

def dedupStatuses : List String := ["pending", "processing", "reported", "completed"]

/-- The dedup check of `processMessage`: one query per status on the
`(status, createdAt)` index with filter `s3Key = :key` and `Limit 1`,
stopping at the first hit.  The record port is modelled with the filter
applied to the queried partition, per the port contract of the spec. -/
def dedupHit (store : List MeetingRec) (key : String) : Bool :=
  dedupStatuses.any (fun st =>
    store.any (fun r => r.status == st && r.s3Key == some key))

/-- Per-track output blob key, as computed inside
`runAWSTranscribe` / `runWhisper` / `runFunASR`. -/
def transcriptKeyFor (pfx meetingId track : String) : String :=
  pfx ++ "/transcripts/" ++ meetingId ++ "/" ++ track ++ ".json"

/-- Track enablement configuration (`ENABLE_TRANSCRIBE`,
`ENABLE_WHISPER`, `FUNASR_URL`, `S3_PREFIX`). -/
structure Config where
  enableTranscribe : Bool
  enableWhisper : Bool
  funasrUrl : String
  pfx : String := "meeting-minutes"
deriving DecidableEq

/-- Outcome of each ASR track run as seen through `.catch(() => null)`:
`true` means the run returned its output key, `false` means it returned
null (service down, failure, or timeout, all caught in the source). -/
structure TrackOracle where
  transcribeOk : Bool
  whisperOk : Bool
  funasrOk : Bool
deriving DecidableEq

/-- Side effects issued by one `processMessage` run of the transcription
worker: records put, record updates, TranscribeDone messages sent, and
the ASR tracks that were started. -/
structure TransEffects where
  puts : List MeetingRec := []
  updates : List UpdateCall := []
  sends : List TranscribeDone := []
  tracksStarted : List String := []
deriving DecidableEq

/-- Mirrors `updateMeetingStatus`: SET status, updatedAt and the extra
attributes, keyed by `(meetingId, createdAt)`, no condition. -/
def updateMeetingStatus (meetingId createdAt status nowIso : String)
    (extraAttrs : List (String × String)) : UpdateCall :=
  { keyMeetingId := meetingId, keyCreatedAt := some createdAt,
    sets := ("status", status) :: ("updatedAt", nowIso) :: extraAttrs }

/-- The fan-out half of the transcription `processMessage` (from the
`Promise.all` over the enabled tracks to the enqueue): raise when every
enabled track yielded null, otherwise update the record to transcribed
with the per-track keys (empty string when missing), resolve the meeting
type against the record store and enqueue TranscribeDone.  `createdAt`
is the loop-local value bound earlier in `processMessage`; `puts` and
`store1` reflect the auto-create that may have preceded the fan-out. -/
def transcribeFanout (pm : ParsedMsg) (store1 : List MeetingRec)
    (createdAt nowIso : String) (puts : List MeetingRec)
    (tracksStarted : List String)
    (transcribeKey whisperKey funasrKey : Option String) :
    TransEffects × Option String :=
  if transcribeKey.isNone && whisperKey.isNone && funasrKey.isNone then
    ({ puts := puts, tracksStarted := tracksStarted },
     some "All transcription tracks failed")
  else
    let upd := updateMeetingStatus pm.meetingId createdAt "transcribed" nowIso
      [("transcribeKey", transcribeKey.getD ""),
       ("whisperKey", whisperKey.getD ""),
       ("funasrKey", funasrKey.getD "")]
    let r0 := pm.meetingType
    let r1 := if r0 == "" || r0 == "general" then
        match (store1.find? (fun r => r.meetingId == pm.meetingId
                  && r.createdAt == createdAt)).bind (·.meetingType) with
        | some m => if m == "" then r0 else m
        | none => r0
      else r0
    let resolved := if r1 == "" then "general" else r1
    ({ puts := puts, tracksStarted := tracksStarted, updates := [upd],
       sends := [{ meetingId := pm.meetingId, transcribeKey := transcribeKey,
                   whisperKey := whisperKey, funasrKey := funasrKey,
                   meetingType := resolved, createdAt := createdAt }] },
     none)

/-- Mirrors `processMessage` of the transcription worker.  `nowIso` is
the `new Date().toISOString()` taken once at the `createdAt` assignment;
the result pairs the issued side effects with the thrown error, if any.
Returning `({}, none)` with no effects is the skip path after which the
polling loop deletes the message. -/
def processTranscription (uriDecode : String → String) (nowMs : Nat) (nowIso : String)
    (cfg : Config) (store : List MeetingRec) (o : TrackOracle)
    (tbody : NewJobBody) : TransEffects × Option String :=
  let pm := parseMessage uriDecode nowMs tbody
  if jsFalsy pm.s3Key then ({}, none)
  else
    let key := pm.s3Key.getD ""
    if endsWithL ".keep".toList key.data then ({}, none)
    else if pm.isS3Event && dedupHit store key then ({}, none)
    else
      let createdAt := nowIso
      let autoRec : MeetingRec :=
        { meetingId := pm.meetingId, status := "processing",
          filename := pm.filename, s3Key := some key,
          meetingType := some pm.meetingType, createdAt := createdAt }
      let puts := if pm.isS3Event then [autoRec] else []
      let store1 := if pm.isS3Event then autoRec :: store else store
      let tracksStarted :=
        (if cfg.enableTranscribe then ["transcribe"] else []) ++
        (if cfg.enableWhisper then ["whisper"] else []) ++
        (if cfg.funasrUrl != "" then ["funasr"] else [])
      let transcribeKey := if cfg.enableTranscribe && o.transcribeOk
        then some (transcriptKeyFor cfg.pfx pm.meetingId "transcribe") else none
      let whisperKey := if cfg.enableWhisper && o.whisperOk
        then some (transcriptKeyFor cfg.pfx pm.meetingId "whisper") else none
      let funasrKey := if cfg.funasrUrl != "" && o.funasrOk
        then some (transcriptKeyFor cfg.pfx pm.meetingId "funasr") else none
      transcribeFanout pm store1 createdAt nowIso puts tracksStarted
        transcribeKey whisperKey funasrKey

/-! ## routes/meetings.js — upload record creation -/

/-- Mirrors the dot-extension strip `filename.replace(/\.[^.]+$/, "")`
used for the default title: the last dot is removed together with what
follows it, provided at least one non-dot character follows. -/
def stripExt (s : String) : String :=
  match lastIdxOfChar '.' s.toList with
  | some j => if j + 1 < s.length then ⟨s.toList.take j⟩ else s
  | none => s

/-- Mirrors the meeting record the upload route puts into DynamoDB.
`recipientEmails` arrives already filtered by the email regex applied
upstream in the same handler. -/
def uploadItem (uuid nowIso originalname : String) (title : Option String)
    (meetingTypeB : Option String) (recipientEmails : List String) : MeetingRec :=
  { meetingId := uuid,
    title := some (match title with
      | some t => if t == "" then stripExt originalname else t
      | none => stripExt originalname),
    createdAt := nowIso,
    status := "pending",
    s3Key := some ("inbox/" ++ uuid ++ "/" ++ originalname),
    filename := some originalname,
    meetingType := some (match meetingTypeB with
      | some m => if m == "" then "general" else m
      | none => "general"),
    recipientEmails := recipientEmails }

/-! ## routes/meetings.js — retry endpoint -/

/-- NewJob message enqueued by the retry route. -/
structure NewJobSend where
  meetingId : String
  s3Key : Option String
  filename : Option String
  meetingType : String
deriving DecidableEq

/-- HTTP outcome of the retry handler: a JSON response with a status
code, or `next(err)`, which the Express default error handler (there is
no custom error middleware in server.js) answers with 500. -/
inductive HttpOut where
  | resp (code : Nat) (tag : String)
  | nextErr (msg : String)
deriving DecidableEq

def httpCode : HttpOut → Nat
  | .resp c _ => c
  | .nextErr _ => 500

structure RetryEffects where
  updates : List UpdateCall := []
  sends : List NewJobSend := []
deriving DecidableEq

/-- Mirrors `router.post("/:id/retry")` (routes/meetings.js): Get by
meetingId, 404 when missing, 400 unless the status is failed, then one
UpdateCommand `SET #s = :s, stage = :stage, updatedAt = :u REMOVE
errorMessage` keyed by `{ meetingId }` with NO ConditionExpression, then
a NewJob enqueue, then 200.  `updateErr` and `sendErr` are the outcomes
of the DynamoDB update and the SQS send; a throw from either reaches
`next(err)`. -/
def retryHandler (id : String) (rec? : Option MeetingRec) (nowIso : String)
    (updateErr sendErr : Option String) : HttpOut × RetryEffects :=
  match rec? with
  | none => (.resp 404 "Not found", {})
  | some r =>
    if r.status != "failed" then
      (.resp 400 "Only failed meetings can be retried", {})
    else
      let upd : UpdateCall :=
        { keyMeetingId := id, keyCreatedAt := none,
          sets := [("status", "processing"), ("stage", "transcribing"),
                   ("updatedAt", nowIso)],
          removesErrorMessage := true, condition := none }
      match updateErr with
      | some e => (.nextErr e, { updates := [upd] })
      | none =>
        let job : NewJobSend :=
          { meetingId := r.meetingId, s3Key := r.s3Key, filename := r.filename,
            meetingType := match r.meetingType with
              | none => "general"
              | some m => if m == "" then "general" else m }
        match sendErr with
        | some e => (.nextErr e, { updates := [upd] })
        | none => (.resp 200 "success", { updates := [upd], sends := [job] })

/-! ## Shared polling loop (workers poll functions) -/

structure QMsg where
  msgId : String
  receiptHandle : String
deriving DecidableEq

/-- Side effects of one inner `for (const msg of messages)` pass of a
worker polling loop: which messages were attempted, which receipt
handles were deleted, and which record updates the per-message catch
handler issued.  The catch blocks in all three workers only log, so the
handler never contributes to `updates`. -/
structure BatchEffects where
  attempted : List String := []
  deletes : List String := []
  updates : List UpdateCall := []
deriving DecidableEq

def isOkB : Except String Unit → Bool
  | .ok _ => true
  | .error _ => false

/-- Mirrors the per-message try/catch shared by the polling loops of the
transcription, report and export workers: invoke `processMessage`, delete
the message on success, log and continue on failure. -/
def handleBatch (process : QMsg → Except String Unit) : List QMsg → BatchEffects
  | [] => {}
  | m :: rest =>
    let tail := handleBatch process rest
    match process m with
    | .ok _ => { attempted := m.msgId :: tail.attempted,
                 deletes := m.receiptHandle :: tail.deletes,
                 updates := tail.updates }
    | .error _ => { attempted := m.msgId :: tail.attempted,
                    deletes := tail.deletes,
                    updates := tail.updates }

/-! ## workers/report-worker.js -/

/-- TranscribeDone message as consumed by the report worker. -/
structure ReportMsg where
  meetingId : String
  createdAt : String
  transcribeKey : Option String
  whisperKey : Option String
  funasrKey : Option String
  meetingType : Option String
deriving DecidableEq

/-- ReportDone message sent to the export queue. -/
structure ReportDone where
  meetingId : String
  reportKey : String
  createdAt : String
deriving DecidableEq

/-- In-process glossary cache (`_glossaryCache`, `_glossaryCacheAt`).
A present empty list is a filled cache: JavaScript arrays are truthy. -/
structure GlossaryCache where
  cache : Option (List String)
  cacheAt : Nat
deriving DecidableEq

def GLOSSARY_CACHE_TTL : Nat := 10 * 60 * 1000

/-- Outcome sequence of the paginated `ScanCommand` loop inside
`fetchGlossaryTerms`: one entry per page request, the list ending at the
page without `LastEvaluatedKey`; an error entry is a throw of that page
request, which aborts the accumulation. -/
def scanGlossary : List (Except Unit (List String)) → Except Unit (List String)
  | [] => .ok []
  | .error e :: _ => .error e
  | .ok items :: rest => (scanGlossary rest).map (items ++ ·)

/-- Mirrors `fetchGlossaryTerms`: serve from the cache while it is
younger than the TTL, otherwise run the paginated scan inside try/catch;
on success fill the cache, on a throw log and return the empty list,
leaving the cache untouched. -/
def fetchGlossaryTerms (st : GlossaryCache) (nowMs : Nat)
    (pages : List (Except Unit (List String))) : List String × GlossaryCache :=
  if st.cache.isSome && decide (nowMs - st.cacheAt < GLOSSARY_CACHE_TTL) then
    (st.cache.getD [], st)
  else
    match scanGlossary pages with
    | .ok terms => (terms, { cache := some terms, cacheAt := nowMs })
    | .error _ => ([], st)

/-- Mirrors the `glossaryNote` clause of `getMeetingPrompt`
(services/bedrock.js): present only when the term list is non-empty. -/
def glossaryNote (terms : List String) : List Char :=
  if terms.length > 0 then
    ("专有名词词库（请确保报告中使用正确拼写）：" ++
      String.intercalate "、" terms ++ "\n\n").toList
  else []

/-- JavaScript falsiness of an optional text value. -/
def jsFalsyL : Option (List Char) → Bool
  | none => true
  | some t => t.isEmpty

/-- Mirrors `extractTranscribeText`: `parseT` stands for `JSON.parse`
plus the `results.transcripts[0].transcript` navigation, yielding the
inner transcript when the payload parses to that shape and nothing
otherwise; any parse throw or miss falls back to the raw payload. -/
def extractTranscribeText (parseT : List Char → Option (List Char))
    (rawJson : List Char) : List Char :=
  match parseT rawJson with
  | some transcript => if transcript.isEmpty then rawJson else transcript
  | none => rawJson

/-- Mirrors `readTranscript`: both fetches settle independently
(`Promise.allSettled` over promise factories), a falsy key settles as a
rejection, the AWS payload goes through `extractTranscribeText`, and the
labelled concatenation or the single surviving text is returned; both
missing is a throw. -/
def readTranscript (getF : String → Except Unit (List Char))
    (parseT : List Char → Option (List Char))
    (tk wk : Option String) : Except Unit (List Char) :=
  let r1 : Option (List Char) := match tk with
    | some k => if k == "" then none else (getF k).toOption
    | none => none
  let r2 : Option (List Char) := match wk with
    | some k => if k == "" then none else (getF k).toOption
    | none => none
  let transcribeText : Option (List Char) := match r1 with
    | some raw => if raw.isEmpty then none else some (extractTranscribeText parseT raw)
    | none => none
  let whisperText : Option (List Char) := r2
  if jsFalsyL transcribeText && jsFalsyL whisperText then .error ()
  else if !jsFalsyL transcribeText && !jsFalsyL whisperText then
    .ok (awsLabel ++ '\n' :: (transcribeText.getD []) ++ nlnl ++
         whisperLabel ++ '\n' :: (whisperText.getD []))
  else .ok (if !jsFalsyL transcribeText then transcribeText.getD []
            else whisperText.getD [])

/-- Mirrors `getMeetingType` of the report worker: the message value
wins when truthy and different from general, otherwise the record is
consulted; a missing record, missing attribute or throw falls back to
general. -/
def getMeetingType (recordAt : String → String → Except Unit (Option MeetingRec))
    (meetingId createdAt : String) (messageType : Option String) : String :=
  let fromDb : String := match recordAt meetingId createdAt with
    | .ok (some r) => (match r.meetingType with
        | some m => if m == "" then "general" else m
        | none => "general")
    | .ok none => "general"
    | .error _ => "general"
  match messageType with
  | some m => if m != "" && m != "general" then m else fromDb
  | none => fromDb

structure ReportEffects where
  updates : List UpdateCall := []
  uploads : List (String × List Char) := []
  sends : List ReportDone := []
deriving DecidableEq

/-- External-call outcomes consumed by one report-worker
`processMessage` run.  `J` is the abstract type of parsed JSON values:
`parseJson` and `stringifyJson` stand for the platform JSON primitives,
`funasrRead` for `readFunASRResult` (which catches internally and yields
null on any failure), and `invokeModel` for the Bedrock call of
services/bedrock.js, giving the LLM response text for the transcript,
meeting type and glossary terms passed to it. -/
structure ReportEnv (J : Type) where
  getF : String → Except Unit (List Char)
  parseT : List Char → Option (List Char)
  funasrRead : String → Option (List Char)
  recordAt : String → String → Except Unit (Option MeetingRec)
  pages : List (Except Unit (List String))
  invokeModel : List Char → String → List String → List Char
  parseJson : List Char → Option J
  stringifyJson : J → List Char
  pfx : String
  nowIso : String
  nowMs : Nat

/-- Steps 3 to 6 of the report-worker `processMessage`, from the Bedrock
response text on: extract and parse the first-to-last-brace JSON
substring, then store the report, advance the record to
reported/exporting and enqueue ReportDone; a missing match or a parse
throw raises. -/
def reportTail {J : Type} (env : ReportEnv J) (msg : ReportMsg)
    (responseText : List Char) : ReportEffects × Option String :=
  match jsonExtract responseText with
  | none => ({}, some "Failed to parse report JSON from Bedrock response")
  | some cand =>
    match env.parseJson cand with
    | none => ({}, some "JSON.parse SyntaxError")
    | some report =>
      let reportKey := "reports/" ++ msg.meetingId ++ "/report.json"
      let fullReportKey := env.pfx ++ "/" ++ reportKey
      let repUpd : UpdateCall :=
        { keyMeetingId := msg.meetingId, keyCreatedAt := some msg.createdAt,
          sets := [("status", "reported"), ("reportKey", fullReportKey),
                   ("updatedAt", env.nowIso), ("stage", "exporting")] }
      ({ updates := [repUpd],
         uploads := [(reportKey, env.stringifyJson report)],
         sends := [{ meetingId := msg.meetingId, reportKey := fullReportKey,
                     createdAt := msg.createdAt }] },
       none)

/-- Mirrors `processMessage` of the report worker: set stage=generating,
resolve the meeting type, assemble the transcript from the dual-track
read and the FunASR read (the FunASR body trimmed to 60000 characters
under its label), fetch the glossary, call the model, then run
`reportTail` on the response. -/
def processReport {J : Type} (env : ReportEnv J) (msg : ReportMsg)
    (gst : GlossaryCache) : ReportEffects × GlossaryCache × Option String :=
  let stageUpd : UpdateCall :=
    { keyMeetingId := msg.meetingId, keyCreatedAt := some msg.createdAt,
      sets := [("stage", "generating"), ("updatedAt", env.nowIso)] }
  let meetingType := getMeetingType env.recordAt msg.meetingId msg.createdAt msg.meetingType
  let transcriptText : Option (List Char) :=
    if !jsFalsy msg.transcribeKey || !jsFalsy msg.whisperKey then
      (readTranscript env.getF env.parseT msg.transcribeKey msg.whisperKey).toOption
    else none
  let funasrText : Option (List Char) := match msg.funasrKey with
    | some k => if k == "" then none else env.funasrRead k
    | none => none
  if jsFalsyL transcriptText && jsFalsyL funasrText then
    ({ updates := [stageUpd] }, gst,
     some "All transcription sources failed (Transcribe, Whisper, FunASR)")
  else
    let parts : List (List Char) :=
      (if !jsFalsyL transcriptText then [transcriptText.getD []] else []) ++
      (if !jsFalsyL funasrText then
        [funasrLabel ++ '\n' :: (funasrText.getD []).take 60000] else [])
    let finalTranscript := List.intercalate nlnl parts
    let fetched := fetchGlossaryTerms gst env.nowMs env.pages
    let gst1 := fetched.2
    let responseText := env.invokeModel finalTranscript meetingType fetched.1
    let tail := reportTail env msg responseText
    ({ updates := stageUpd :: tail.1.updates, uploads := tail.1.uploads,
       sends := tail.1.sends }, gst1, tail.2)

/-! ## Export worker (src/unnamed/part_002) -/

structure ExportMsg where
  meetingId : String
  reportKey : String
  createdAt : String
  meetingName : Option String
deriving DecidableEq

structure EmailSend where
  toAddrs : List String
  bcc : List String
deriving DecidableEq

structure ExportEffects where
  updates : List UpdateCall := []
  emails : List EmailSend := []
deriving DecidableEq

/-- Mirrors the recipientEmails read of the export worker: a projected
Get on `(meetingId, createdAt)`; a throw, a missing record or a
missing/empty attribute leaves the list empty. -/
def readRecipients (recLookup : Except Unit (Option MeetingRec)) : List String :=
  match recLookup with
  | .ok (some r) => if r.recipientEmails.length > 0 then r.recipientEmails else []
  | .ok none => []
  | .error _ => []

/-- Mirrors `processMessage` of the export worker: set stage=sending,
load the report from S3, build the HTML body (leaf templating, no record
effects), resolve recipients, send at most one email, then mark the
record completed/done with exportedAt.  `reportLoad` is the outcome of
the S3 read plus JSON parse; a throw there propagates. -/
def processExport (msg : ExportMsg) (nowIso : String)
    (reportLoad : Except String Unit)
    (recLookup : Except Unit (Option MeetingRec))
    (defaultTo : Option String) : ExportEffects × Option String :=
  let stageUpd : UpdateCall :=
    { keyMeetingId := msg.meetingId, keyCreatedAt := some msg.createdAt,
      sets := [("stage", "sending"), ("updatedAt", nowIso)] }
  match reportLoad with
  | .error e => ({ updates := [stageUpd] }, some e)
  | .ok _ =>
    let recipientEmails := readRecipients recLookup
    let emails : List EmailSend :=
      if recipientEmails.length > 0 then
        [{ toAddrs := recipientEmails,
           bcc := if jsFalsy defaultTo then [] else [defaultTo.getD ""] }]
      else if !jsFalsy defaultTo then [{ toAddrs := [defaultTo.getD ""], bcc := [] }]
      else []
    let doneUpd : UpdateCall :=
      { keyMeetingId := msg.meetingId, keyCreatedAt := some msg.createdAt,
        sets := [("status", "completed"), ("exportedAt", nowIso),
                 ("updatedAt", nowIso), ("stage", "done")] }
    ({ updates := [stageUpd, doneUpd], emails := emails }, none)

/-- Follows the spec wording of the recipient-resolution rule, for
comparison with the export worker: with custom recipients the email goes
to them with the configured default in BCC; with none it goes to the
default; with neither no email is sent. -/
def specRecipientResolution (recipientEmails : List String)
    (defaultTo : Option String) : List EmailSend :=
  if recipientEmails ≠ [] then
    [{ toAddrs := recipientEmails,
       bcc := if jsFalsy defaultTo then [] else [defaultTo.getD ""] }]
  else if !jsFalsy defaultTo then [{ toAddrs := [defaultTo.getD ""], bcc := [] }]
  else []

/-! ## Helper lemmas -/

theorem containsChar_of_mem (c : Char) (t : List Char) (h : c ∈ t) :
    containsChar c t = true := by
  induction t with
  | nil => simp at h
  | cons a u ih =>
    rcases List.mem_cons.mp h with h | h
    · subst h; simp [containsChar]
    · simp [containsChar, ih h]

theorem idxOfChar_append (c : Char) (pre rest : List Char)
    (h : containsChar c pre = false) :
    idxOfChar c (pre ++ c :: rest) = some pre.length := by
  induction pre with
  | nil => simp [idxOfChar]
  | cons a as ih =>
    have h2 : (a == c) = false ∧ containsChar c as = false := by
      simpa [containsChar, Bool.or_eq_false_iff] using h
    simp [idxOfChar, h2.1, ih h2.2]

theorem lastIdxOfChar_snoc (c : Char) (xs : List Char) :
    lastIdxOfChar c (xs ++ [c]) = some xs.length := by
  induction xs with
  | nil => simp [lastIdxOfChar]
  | cons a t ih => simp [lastIdxOfChar, ih]

theorem idxOfChar_drop (c : Char) (s : List Char) (i : Nat)
    (h : idxOfChar c s = some i) : ∃ t, s.drop i = c :: t := by
  induction s generalizing i with
  | nil => simp [idxOfChar] at h
  | cons a u ih =>
    by_cases hac : (a == c) = true
    · have hi : i = 0 := by simp [idxOfChar, hac] at h; omega
      subst hi
      have hca : a = c := eq_of_beq hac
      exact ⟨u, by rw [List.drop_zero, hca]⟩
    · rw [idxOfChar, if_neg hac] at h
      obtain ⟨i0, h0, hi⟩ := Option.map_eq_some'.mp h
      obtain ⟨t, ht⟩ := ih i0 h0
      exact ⟨t, by rw [← hi, List.drop_succ_cons, ht]⟩

theorem lastIdxOfChar_drop (c : Char) (s : List Char) (j : Nat)
    (h : lastIdxOfChar c s = some j) : ∃ t, s.drop j = c :: t := by
  induction s generalizing j with
  | nil => simp [lastIdxOfChar] at h
  | cons a u ih =>
    rcases hU : lastIdxOfChar c u with _ | i
    · rw [lastIdxOfChar, hU] at h
      by_cases hac : (a == c) = true
      · rw [if_pos hac] at h
        have hj : j = 0 := by simpa using h.symm
        subst hj
        exact ⟨u, by simp [eq_of_beq hac]⟩
      · rw [if_neg hac] at h; exact absurd h (by simp)
    · rw [lastIdxOfChar, hU] at h
      have hj : j = i + 1 := by simpa using h.symm
      subst hj
      obtain ⟨t, ht⟩ := ih i hU
      exact ⟨t, by rw [List.drop_succ_cons, ht]⟩

theorem hasBracePair_of (s : List Char) (i : Nat) (t : List Char)
    (hd : s.drop i = lbrace :: t) (hmem : containsChar rbrace t = true) :
    hasBracePair s = true := by
  induction s generalizing i t with
  | nil => simp at hd
  | cons a u ih =>
    cases i with
    | zero =>
      rw [List.drop_zero] at hd
      injection hd with h1 h2
      subst h1; subst h2
      simp [hasBracePair, hmem]
    | succ n =>
      rw [List.drop_succ_cons] at hd
      simp [hasBracePair, ih n t hd hmem]

theorem jsonExtract_append (pre mid : List Char)
    (hpre : containsChar lbrace pre = false) :
    jsonExtract (pre ++ lbrace :: (mid ++ [rbrace]))
      = some (lbrace :: (mid ++ [rbrace])) := by
  have hidx : idxOfChar lbrace (pre ++ lbrace :: (mid ++ [rbrace]))
      = some pre.length := idxOfChar_append _ _ _ hpre
  have hassoc : pre ++ lbrace :: (mid ++ [rbrace])
      = (pre ++ lbrace :: mid) ++ [rbrace] := by simp
  have hlast : lastIdxOfChar rbrace (pre ++ lbrace :: (mid ++ [rbrace]))
      = some (pre ++ lbrace :: mid).length := by
    rw [hassoc]; exact lastIdxOfChar_snoc _ _
  unfold jsonExtract
  rw [hidx, hlast]
  have hlt : pre.length < (pre ++ lbrace :: mid).length := by simp
  dsimp only
  rw [if_pos hlt]
  rw [List.drop_left]
  have harith : (pre ++ lbrace :: mid).length + 1 - pre.length
      = (lbrace :: (mid ++ [rbrace])).length := by
    simp; omega
  rw [harith, List.take_length]

theorem jsonExtract_eq_none (s : List Char) (h : hasBracePair s = false) :
    jsonExtract s = none := by
  rcases hI : idxOfChar lbrace s with _ | i <;>
    rcases hJ : lastIdxOfChar rbrace s with _ | j <;>
    simp only [jsonExtract, hI, hJ]
  have hnot : ¬ i < j := by
    intro hij
    obtain ⟨t, ht⟩ := idxOfChar_drop _ _ _ hI
    obtain ⟨t2, ht2⟩ := lastIdxOfChar_drop _ _ _ hJ
    have hT : s.drop (i + 1) = t := by
      rw [← List.drop_drop 1 i s, ht, List.drop_succ_cons, List.drop_zero]
    have hmem : containsChar rbrace t = true := by
      have h1 : (s.drop (i + 1)).drop (j - (i + 1)) = s.drop j := by
        rw [List.drop_drop]; congr 1; omega
      have h2 : rbrace ∈ s.drop j := by
        rw [ht2]; exact List.mem_cons_self _ _
      rw [← h1] at h2
      rw [← hT]
      exact containsChar_of_mem _ _ (List.mem_of_mem_drop h2)
    have := hasBracePair_of s i t ht hmem
    simp [this] at h
  rw [if_neg hnot]

theorem startsWithL_self_append (p rest : List Char) :
    startsWithL p (p ++ rest) = true := by
  induction p with
  | nil => rfl
  | cons a as ih => simp [startsWithL, ih]

theorem truncateTranscript_dual (text : List Char)
    (h1 : containsSub awsLabel text = true)
    (h2 : containsSub whisperLabel text = true) :
    truncateTranscript text =
      (jsSplitParts01 whisperLabel text).1.take 60000 ++ nlnl ++
        (whisperLabel ++
          (jsSplitParts01 whisperLabel text).2.take (60000 - whisperLabel.length)) := by
  simp [truncateTranscript, h1, h2]

theorem truncateTranscript_funasrOnly (text : List Char)
    (h1 : containsSub funasrLabel text = true)
    (h2 : containsSub awsLabel text = false) :
    truncateTranscript text =
      (breakOnFirst funasrLabel text).1 ++ funasrLabel ++
        (breakOnFirst funasrLabel text).2.take 60000 := by
  simp [truncateTranscript, h1, h2]

theorem whisperLabel_length : whisperLabel.length = 12 := by decide

/-- Whether some page request of the scan throws. -/
def scanHasError : List (Except Unit (List String)) → Bool
  | [] => false
  | .error _ :: _ => true
  | .ok _ :: rest => scanHasError rest

theorem scanGlossary_error (pages : List (Except Unit (List String)))
    (h : scanHasError pages = true) : scanGlossary pages = .error () := by
  induction pages with
  | nil => simp [scanHasError] at h
  | cons p rest ih =>
    rcases p with e | items
    · cases e; rfl
    · have hr : scanHasError rest = true := by simpa [scanHasError] using h
      simp [scanGlossary, ih hr, Except.map]

/-! ## Fixtures for the closed theorems -/

/-- A failed record as the retry route observes it. -/
def retryFixtureRec : MeetingRec :=
  { meetingId := "m-race", createdAt := "2026-02-18T09:00:00.000Z",
    status := "failed", s3Key := some "inbox/m-race/d.mp3",
    filename := some "d.mp3", meetingType := some "general",
    errorMessage := some "previous error" }

/-- Transcribe-only track configuration. -/
def cfgT : Config :=
  { enableTranscribe := true, enableWhisper := false, funasrUrl := "" }

/-- Oracle where the transcribe track succeeds. -/
def oT : TrackOracle :=
  { transcribeOk := true, whisperOk := false, funasrOk := false }

/-- A completed record holding the s3Key of an external notification. -/
def dupRec : MeetingRec :=
  { meetingId := "meeting-1", createdAt := "2026-02-18T09:00:00.000Z",
    status := "completed", s3Key := some "media/weekly__a.mp4" }

/-- The record the upload route creates for meeting m1 at T0. -/
def uploadFixtureRec : MeetingRec :=
  uploadItem "m1" "2026-02-18T09:00:00.000Z" "a.mp3" none none []

theorem parseMessage_s3Event_isS3Event (ud : String → String) (nowMs : Nat)
    (raw : String) : (parseMessage ud nowMs (.s3Event raw)).isS3Event = true := rfl

theorem transcribeFanout_fields (pm : ParsedMsg)
    (store1 : List MeetingRec) (createdAt nowIso : String)
    (puts : List MeetingRec) (tracks : List String)
    (tk wk fk : Option String) :
    (transcribeFanout pm store1 createdAt nowIso puts tracks tk wk fk).1.puts
        = puts
  ∧ ((transcribeFanout pm store1 createdAt nowIso puts tracks tk wk fk).1.updates.map
        (·.keyCreatedAt)).all (· == some createdAt) = true
  ∧ ((transcribeFanout pm store1 createdAt nowIso puts tracks tk wk fk).1.sends.map
        (·.createdAt)).all (· == createdAt) = true := by
  unfold transcribeFanout
  split
  · exact ⟨rfl, rfl, rfl⟩
  · refine ⟨rfl, ?_, ?_⟩ <;> simp [updateMeetingStatus]

/-! ## Claim theorems -/

/-- C2 is contradicted by the code: the retry update of
routes/meetings.js carries no ConditionExpression, a retry observing a
failed record always answers 200 (so two racing retries that both read
status failed both succeed), no execution path of the handler answers
409, and a ConditionalCheckFailedException raised by the update would
reach next(err), which the default error handler answers with 500. -/
theorem retry_update_unconditional_never_409 :
    (∀ (id : String) (rec? : Option MeetingRec) (nowIso : String)
        (updateErr sendErr : Option String),
        httpCode (retryHandler id rec? nowIso updateErr sendErr).1 ≠ 409)
  ∧ (retryHandler "m-race" (some retryFixtureRec)
        "2026-02-18T10:00:00.000Z" none none).1 = .resp 200 "success"
  ∧ ((retryHandler "m-race" (some retryFixtureRec)
        "2026-02-18T10:00:00.000Z" none none).2.updates.map (·.condition)) = [none]
  ∧ httpCode (retryHandler "m-race" (some retryFixtureRec)
        "2026-02-18T10:00:00.000Z" (some "ConditionalCheckFailedException") none).1
      = 500 := by
  refine ⟨?_, rfl, rfl, rfl⟩
  intro id rec? nowIso updateErr sendErr
  cases rec? with
  | none => simp [retryHandler, httpCode]
  | some r =>
    by_cases hs : (r.status != "failed") = true
    · simp [retryHandler, hs, httpCode]
    · cases updateErr <;> cases sendErr <;>
        simp [retryHandler, hs, httpCode]

/-- C3 partially holds and is partially contradicted by the code: the
per-message try/catch of every worker polling loop attempts all messages
of a batch and deletes exactly the successful ones, so one failing
message aborts neither the batch nor the loop; but the catch handler
issues no record update at all, so a failing message never has its
record set to status=failed, stage=failed with an errorMessage, contrary
to the claim (evaluated concretely on a batch where the first message
throws). -/
theorem poll_isolation_no_failed_update :
    (∀ (process : QMsg → Except String Unit) (msgs : List QMsg),
        (handleBatch process msgs).attempted = msgs.map (·.msgId)
      ∧ (handleBatch process msgs).deletes
          = (msgs.filter (fun m => isOkB (process m))).map (·.receiptHandle)
      ∧ (handleBatch process msgs).updates = [])
  ∧ handleBatch (fun m => if m.msgId == "m1" then .error "boom" else .ok ())
        [⟨"m1", "r1"⟩, ⟨"m2", "r2"⟩, ⟨"m3", "r3"⟩]
      = { attempted := ["m1", "m2", "m3"], deletes := ["r2", "r3"],
          updates := [] } := by
  constructor
  · intro process msgs
    induction msgs with
    | nil => exact ⟨rfl, rfl, rfl⟩
    | cons m rest ih =>
      obtain ⟨ih1, ih2, ih3⟩ := ih
      rcases hp : process m with e | a
      · exact ⟨by simp [handleBatch, hp, ih1],
               by simp [handleBatch, hp, isOkB, List.filter_cons, ih2],
               by simp [handleBatch, hp, ih3]⟩
      · exact ⟨by simp [handleBatch, hp, ih1],
               by simp [handleBatch, hp, isOkB, List.filter_cons, ih2],
               by simp [handleBatch, hp, ih3]⟩
  · rfl

/-- C8: with the report loaded, the export worker sends exactly the
emails prescribed by the spec resolution rule for the recipient list
read from the record (custom recipients in To with the configured
default in BCC, otherwise the default alone, otherwise none), and in
every case issues the stage=sending update followed by the
status=completed, stage=done update carrying exportedAt. -/
theorem export_recipient_resolution (msg : ExportMsg) (nowIso : String)
    (recLookup : Except Unit (Option MeetingRec)) (defaultTo : Option String) :
    (processExport msg nowIso (.ok ()) recLookup defaultTo).1.emails
      = specRecipientResolution (readRecipients recLookup) defaultTo
  ∧ (processExport msg nowIso (.ok ()) recLookup defaultTo).1.updates.map (·.sets)
      = [[("stage", "sending"), ("updatedAt", nowIso)],
         [("status", "completed"), ("exportedAt", nowIso),
          ("updatedAt", nowIso), ("stage", "done")]]
  ∧ (processExport msg nowIso (.ok ()) recLookup defaultTo).2 = none := by
  refine ⟨?_, rfl, rfl⟩
  by_cases h : readRecipients recLookup = []
  · simp [processExport, specRecipientResolution, h]
  · have hl : 0 < (readRecipients recLookup).length := List.length_pos.mpr h
    simp [processExport, specRecipientResolution, h, hl]

/-- C9: when the glossary cache is stale and the paginated scan throws
at any page, `fetchGlossaryTerms` returns the empty list instead of
propagating the error and leaves the cache unchanged; the glossary note
rendered from an empty term list is empty, so the prompt is built
without one and the report stage never fails on a glossary-store
failure. -/
theorem fetchGlossaryTerms_failure_isolated (st : GlossaryCache) (nowMs : Nat)
    (pages : List (Except Unit (List String)))
    (hstale : (st.cache.isSome
        && decide (nowMs - st.cacheAt < GLOSSARY_CACHE_TTL)) = false)
    (herr : scanHasError pages = true) :
    fetchGlossaryTerms st nowMs pages = ([], st) ∧ glossaryNote [] = [] := by
  refine ⟨?_, rfl⟩
  simp [fetchGlossaryTerms, hstale, scanGlossary_error pages herr]

/-- C9 witness: `fetchGlossaryTerms_failure_isolated` on an empty cache
with a scan whose second page throws. -/
theorem fetchGlossaryTerms_failure_isolated_witness :
    ((({ cache := none, cacheAt := 0 } : GlossaryCache).cache.isSome
        && decide ((1000 : Nat) - (0 : Nat) < GLOSSARY_CACHE_TTL)) = false)
  ∧ scanHasError [Except.ok ["NexusAI"], Except.error ()] = true
  ∧ (fetchGlossaryTerms { cache := none, cacheAt := 0 } 1000
        [Except.ok ["NexusAI"], Except.error ()]
        = ([], { cache := none, cacheAt := 0 })
     ∧ glossaryNote [] = []) :=
  ⟨by decide, by decide,
   fetchGlossaryTerms_failure_isolated _ _ _ (by decide) (by decide)⟩

/-- C4 counterexample: an internal NewJob (the shape the upload and
retry routes enqueue) whose s3Key already appears in a pending record is
processed in full — the record store is updated and a TranscribeDone is
enqueued — so the no-op claim fails for NewJob messages that are not
external bucket notifications. -/
theorem dedup_internal_processed :
    dedupHit [uploadFixtureRec] "inbox/m1/a.mp3" = true
  ∧ (processTranscription (fun s => s) 123 "2026-02-18T10:00:00.000Z" cfgT
        [uploadFixtureRec] oT
        (.internal "m1" (some "inbox/m1/a.mp3") (some "a.mp3")
          (some "general"))).1.updates.length = 1
  ∧ (processTranscription (fun s => s) 123 "2026-02-18T10:00:00.000Z" cfgT
        [uploadFixtureRec] oT
        (.internal "m1" (some "inbox/m1/a.mp3") (some "a.mp3")
          (some "general"))).1.sends.length = 1 := by
  decide

/-- C4 (amended): deduplication applies to external bucket-notification
messages only; for such a message whose decoded s3Key already appears in
a stored record with status pending, processing, reported or completed,
processing is a no-op: nothing is put or updated, no ASR track starts,
no TranscribeDone is sent and no error is thrown, so the polling loop
only deletes the message. -/
theorem dedup_external_noop (uriDecode : String → String) (nowMs : Nat)
    (nowIso : String) (cfg : Config) (store : List MeetingRec) (o : TrackOracle)
    (rawKey : String)
    (hdup : dedupHit store
        ((parseMessage uriDecode nowMs (.s3Event rawKey)).s3Key.getD "") = true) :
    processTranscription uriDecode nowMs nowIso cfg store o (.s3Event rawKey)
      = ({}, none) := by
  simp only [processTranscription]
  split
  · rfl
  split
  · rfl
  split
  · rfl
  next hcond =>
    exact absurd (by rw [parseMessage_s3Event_isS3Event]; simpa using hdup) hcond

/-- C4 witness: `dedup_external_noop` on a redelivered notification for
media/weekly__a.mp4 while a completed record holds the same s3Key. -/
theorem dedup_external_noop_witness :
    dedupHit [dupRec]
        ((parseMessage (fun s => s) 123
          (.s3Event "media/weekly__a.mp4")).s3Key.getD "") = true
  ∧ processTranscription (fun s => s) 123 "2026-02-18T10:00:00.000Z" cfgT
        [dupRec] oT (.s3Event "media/weekly__a.mp4") = ({}, none) :=
  ⟨by decide, dedup_external_noop _ _ _ _ _ _ _ (by decide)⟩

/-- C7 counterexample: the record auto-created for an external bucket
notification is put with status processing and no stage attribute,
whereas the upload route creates records with status pending (likewise
with no stage attribute), so the auto-created initial state is neither
status=pending nor stage=transcribing and differs from the
upload-created initial state. -/
theorem autoCreate_initial_state_differs :
    (processTranscription (fun s => s) 123 "2026-02-18T10:00:00.000Z" cfgT []
        oT (.s3Event "media/weekly__a.mp4")).1.puts.map
          (fun r => (r.status, r.stage)) = [("processing", none)]
  ∧ uploadFixtureRec.status = "pending"
  ∧ uploadFixtureRec.stage = none
  ∧ ("processing" : String) ≠ "pending" := by
  decide

/-- C7 (amended): every record the transcription worker auto-creates is
put with status processing and no stage attribute, and every record the
upload route creates has status pending and no stage attribute; the two
creation paths agree on leaving stage unset but differ in the initial
status. -/
theorem creation_initial_states (uriDecode : String → String) (nowMs : Nat)
    (nowIso : String) (cfg : Config) (store : List MeetingRec) (o : TrackOracle)
    (tbody : NewJobBody) (uuid originalname : String) (title mt : Option String)
    (emails : List String) :
    ((processTranscription uriDecode nowMs nowIso cfg store o tbody).1.puts.map
        (fun r => (r.status, r.stage))).all
          (fun p => p == ("processing", none)) = true
  ∧ (uploadItem uuid nowIso originalname title mt emails).status = "pending"
  ∧ (uploadItem uuid nowIso originalname title mt emails).stage = none := by
  refine ⟨?_, rfl, rfl⟩
  simp only [processTranscription]
  split
  · rfl
  split
  · rfl
  split
  · rfl
  rw [(transcribeFanout_fields _ _ _ _ _ _ _ _ _).1]
  cases hS : (parseMessage uriDecode nowMs tbody).isS3Event <;> simp [hS]

/-- C1 counterexample: for an internal NewJob referencing the
upload-created record of meeting m1 (createdAt T0), the transcription
worker derives a fresh createdAt from its own clock T1 and uses it both
as the record-update key and in the TranscribeDone message, so the
createdAt attached at record creation is not the one used by the
subsequent update and outbound message. -/
theorem transcription_fresh_createdAt :
    uploadFixtureRec.createdAt = "2026-02-18T09:00:00.000Z"
  ∧ (processTranscription (fun s => s) 123 "2026-02-18T10:00:00.000Z" cfgT
        [uploadFixtureRec] oT
        (.internal "m1" (some "inbox/m1/a.mp3") (some "a.mp3")
          (some "general"))).1.updates.map (·.keyCreatedAt)
      = [some "2026-02-18T10:00:00.000Z"]
  ∧ (processTranscription (fun s => s) 123 "2026-02-18T10:00:00.000Z" cfgT
        [uploadFixtureRec] oT
        (.internal "m1" (some "inbox/m1/a.mp3") (some "a.mp3")
          (some "general"))).1.sends.map (·.createdAt)
      = ["2026-02-18T10:00:00.000Z"]
  ∧ ("2026-02-18T10:00:00.000Z" : String) ≠ "2026-02-18T09:00:00.000Z" := by
  decide

theorem reportTail_keyCreatedAt {J : Type} (env : ReportEnv J) (msg : ReportMsg)
    (resp : List Char) :
    ((reportTail env msg resp).1.updates.map (·.keyCreatedAt)).all
        (· == some msg.createdAt) = true
  ∧ ((reportTail env msg resp).1.sends.map (·.createdAt)).all
        (· == msg.createdAt) = true := by
  rcases hx : jsonExtract resp with _ | cand <;> simp only [reportTail, hx]
  · exact ⟨rfl, rfl⟩
  · rcases hp : env.parseJson cand with _ | rep <;> simp only [hp]
    · exact ⟨rfl, rfl⟩
    · constructor <;> simp

/-- C1 (amended): each transcription processMessage run uses one
loop-local createdAt — its own clock value, never one carried by the
message or the record — for the auto-created record, the record-update
key and the TranscribeDone message; the report and export workers key
every record update by the createdAt of their incoming message and the
report worker propagates it unchanged into ReportDone; consequently the
transcription stage derives a fresh createdAt even for internal NewJob
messages referencing an already-created record. -/
theorem createdAt_loop_local_and_propagated {J : Type}
    (uriDecode : String → String) (nowMs : Nat) (nowIso : String) (cfg : Config)
    (store : List MeetingRec) (o : TrackOracle) (tbody : NewJobBody)
    (env : ReportEnv J) (rmsg : ReportMsg) (gst : GlossaryCache)
    (emsg : ExportMsg) (eNow : String) (eLoad : Except String Unit)
    (eRec : Except Unit (Option MeetingRec)) (eDflt : Option String) :
    ((processTranscription uriDecode nowMs nowIso cfg store o tbody).1.puts.map
        (·.createdAt)).all (· == nowIso) = true
  ∧ ((processTranscription uriDecode nowMs nowIso cfg store o tbody).1.updates.map
        (·.keyCreatedAt)).all (· == some nowIso) = true
  ∧ ((processTranscription uriDecode nowMs nowIso cfg store o tbody).1.sends.map
        (·.createdAt)).all (· == nowIso) = true
  ∧ ((processReport env rmsg gst).1.updates.map
        (·.keyCreatedAt)).all (· == some rmsg.createdAt) = true
  ∧ ((processReport env rmsg gst).1.sends.map
        (·.createdAt)).all (· == rmsg.createdAt) = true
  ∧ ((processExport emsg eNow eLoad eRec eDflt).1.updates.map
        (·.keyCreatedAt)).all (· == some emsg.createdAt) = true := by
  refine ⟨?_, ?_, ?_, ?_, ?_, ?_⟩
  · simp only [processTranscription]
    split
    · rfl
    split
    · rfl
    split
    · rfl
    rw [(transcribeFanout_fields _ _ _ _ _ _ _ _ _).1]
    cases hS : (parseMessage uriDecode nowMs tbody).isS3Event <;> simp [hS]
  · simp only [processTranscription]
    split
    · rfl
    split
    · rfl
    split
    · rfl
    exact (transcribeFanout_fields _ _ _ _ _ _ _ _ _).2.1
  · simp only [processTranscription]
    split
    · rfl
    split
    · rfl
    split
    · rfl
    exact (transcribeFanout_fields _ _ _ _ _ _ _ _ _).2.2
  · simp only [processReport]
    repeat' split
    all_goals simp [reportTail_keyCreatedAt]
  · simp only [processReport]
    repeat' split
    all_goals simp [reportTail_keyCreatedAt]
  · simp only [processExport]
    split <;> simp

/-- Report-stage fixture context for the JSON-extraction theorem: a
FunASR-only TranscribeDone whose FunASR read yields a short line, a
record-store miss, a single successful empty glossary page, the Bedrock
call returning `resp`, and the JSON primitives given by `parse` and
`stringify`. -/
def c6Env {J : Type} (resp : List Char) (parse : List Char → Option J)
    (stringify : J → List Char) : ReportEnv J :=
  { getF := fun _ => .error (),
    parseT := fun _ => none,
    funasrRead := fun _ => some ['h', 'i'],
    recordAt := fun _ _ => .ok none,
    pages := [.ok []],
    invokeModel := fun _ _ _ => resp,
    parseJson := parse,
    stringifyJson := stringify,
    pfx := "meeting-minutes",
    nowIso := "2026-02-18T10:05:00.000Z",
    nowMs := 1000 }

def c6Msg : ReportMsg :=
  { meetingId := "m1", createdAt := "2026-02-18T09:00:00.000Z",
    transcribeKey := none, whisperKey := none,
    funasrKey := some "meeting-minutes/transcripts/m1/funasr.json",
    meetingType := some "general" }

def c6Gst : GlossaryCache := { cache := none, cacheAt := 0 }

/-- A well-formed JSON object text for the witness. -/
def c6Obj : List Char := lbrace :: ("\"summary\":1".toList ++ [rbrace])

def c6Parse : List Char → Option Nat := fun s => if s = c6Obj then some 7 else none

def c6Strf : Nat → List Char := fun _ => [lbrace, rbrace]

/-- C6: for an LLM response made of preamble text containing no opening
brace followed by a well-formed JSON object text (so the greedy match is
exactly that first brace-to-last-brace substring, the object itself),
the report stage extracts precisely the object text and stores its
parse; for a response with no opening brace before a closing brace the
match fails, the stage raises, and no report upload, no ReportDone send
and no record update beyond the initial stage=generating write is
issued. -/
theorem report_json_extraction {J : Type} (pre mid : List Char) (v : J)
    (parse : List Char → Option J) (stringify : J → List Char)
    (resp2 : List Char)
    (hpre : containsChar lbrace pre = false)
    (hv : parse (lbrace :: (mid ++ [rbrace])) = some v)
    (hneg : hasBracePair resp2 = false) :
    jsonExtract (pre ++ lbrace :: (mid ++ [rbrace]))
        = some (lbrace :: (mid ++ [rbrace]))
  ∧ (processReport (c6Env (pre ++ lbrace :: (mid ++ [rbrace])) parse stringify)
        c6Msg c6Gst).1.uploads.map (·.2) = [stringify v]
  ∧ (processReport (c6Env (pre ++ lbrace :: (mid ++ [rbrace])) parse stringify)
        c6Msg c6Gst).2.2 = none
  ∧ (processReport (c6Env resp2 parse stringify) c6Msg c6Gst).2.2
      = some "Failed to parse report JSON from Bedrock response"
  ∧ (processReport (c6Env resp2 parse stringify) c6Msg c6Gst).1.uploads = []
  ∧ (processReport (c6Env resp2 parse stringify) c6Msg c6Gst).1.sends = []
  ∧ (processReport (c6Env resp2 parse stringify) c6Msg c6Gst).1.updates.map (·.sets)
      = [[("stage", "generating"),
          ("updatedAt", "2026-02-18T10:05:00.000Z")]] := by
  have hext := jsonExtract_append pre mid hpre
  have hnone := jsonExtract_eq_none resp2 hneg
  refine ⟨hext, ?_, ?_, ?_, ?_, ?_, ?_⟩ <;>
    simp [processReport, reportTail, c6Env, c6Msg, c6Gst, jsFalsy, jsFalsyL,
          hext, hnone, hv]

/-- C6 witness: `report_json_extraction` at a response with preamble
"ok: " before a JSON object text, and at the brace-free response
"no json here". -/
theorem report_json_extraction_witness :
    containsChar lbrace "ok: ".toList = false
  ∧ c6Parse (lbrace :: ("\"summary\":1".toList ++ [rbrace])) = some 7
  ∧ hasBracePair "no json here".toList = false
  ∧ (jsonExtract ("ok: ".toList ++ lbrace :: ("\"summary\":1".toList ++ [rbrace]))
        = some (lbrace :: ("\"summary\":1".toList ++ [rbrace]))
     ∧ (processReport (c6Env ("ok: ".toList ++ lbrace ::
            ("\"summary\":1".toList ++ [rbrace])) c6Parse c6Strf)
          c6Msg c6Gst).1.uploads.map (·.2) = [c6Strf 7]
     ∧ (processReport (c6Env ("ok: ".toList ++ lbrace ::
            ("\"summary\":1".toList ++ [rbrace])) c6Parse c6Strf)
          c6Msg c6Gst).2.2 = none
     ∧ (processReport (c6Env "no json here".toList c6Parse c6Strf)
          c6Msg c6Gst).2.2 = some "Failed to parse report JSON from Bedrock response"
     ∧ (processReport (c6Env "no json here".toList c6Parse c6Strf)
          c6Msg c6Gst).1.uploads = []
     ∧ (processReport (c6Env "no json here".toList c6Parse c6Strf)
          c6Msg c6Gst).1.sends = []
     ∧ (processReport (c6Env "no json here".toList c6Parse c6Strf)
          c6Msg c6Gst).1.updates.map (·.sets)
        = [[("stage", "generating"),
            ("updatedAt", "2026-02-18T10:05:00.000Z")]]) :=
  ⟨by decide, by decide, by decide,
   report_json_extraction "ok: ".toList "\"summary\":1".toList 7 c6Parse c6Strf
     "no json here".toList (by decide) (by decide) (by decide)⟩

/-! ## Claim theorems: C5 and C10 -/

/-- C5: for a transcript containing both the AWS Transcribe label and the
Whisper label, each side of the split (the label included) is at most
60000 characters after truncation; for a transcript containing the FunASR
label but not the AWS label, the body after the FunASR label is at most
60000 characters; in every other case the whole string is truncated to at
most 120000 characters. -/
theorem truncateTranscript_spec (text : List Char) :
    (containsSub awsLabel text = true → containsSub whisperLabel text = true →
      ∃ a b, truncateTranscript text = a ++ nlnl ++ (whisperLabel ++ b)
        ∧ a.length ≤ 60000 ∧ (whisperLabel ++ b).length ≤ 60000)
  ∧ (containsSub funasrLabel text = true → containsSub awsLabel text = false →
      ∃ pre rest, truncateTranscript text = pre ++ funasrLabel ++ rest
        ∧ rest.length ≤ 60000)
  ∧ (¬(containsSub awsLabel text = true ∧ containsSub whisperLabel text = true) →
     ¬(containsSub funasrLabel text = true ∧ containsSub awsLabel text = false) →
      truncateTranscript text = text.take 120000
        ∧ (truncateTranscript text).length ≤ 120000) := by
  refine ⟨?_, ?_, ?_⟩
  · intro h1 h2
    refine ⟨(jsSplitParts01 whisperLabel text).1.take 60000,
            (jsSplitParts01 whisperLabel text).2.take (60000 - whisperLabel.length),
            truncateTranscript_dual text h1 h2, ?_, ?_⟩
    · exact List.length_take_le 60000 _
    · have hb : ((jsSplitParts01 whisperLabel text).2.take
          (60000 - whisperLabel.length)).length ≤ 60000 - whisperLabel.length :=
        List.length_take_le _ _
      rw [List.length_append, whisperLabel_length]
      rw [whisperLabel_length] at hb
      omega
  · intro h1 h2
    exact ⟨(breakOnFirst funasrLabel text).1,
           (breakOnFirst funasrLabel text).2.take 60000,
           truncateTranscript_funasrOnly text h1 h2, List.length_take_le _ _⟩
  · intro h1 h2
    have hsingle : truncateTranscript text = text.take 120000 := by
      unfold truncateTranscript
      rcases hA : containsSub awsLabel text with _ | _
      · rcases hF : containsSub funasrLabel text with _ | _
        · simp [hA, hF]
        · exact absurd ⟨hF, hA⟩ h2
      · rcases hW : containsSub whisperLabel text with _ | _
        · simp [hA, hW]
        · exact absurd ⟨hA, hW⟩ h1
    exact ⟨hsingle, by rw [hsingle]; exact List.length_take_le _ _⟩

/-- C5 witness: the dual-track case of `truncateTranscript_spec` applied
to a concrete transcript carrying both labels. -/
theorem truncateTranscript_spec_witness :
    containsSub awsLabel ("[AWS Transcribe 转录]\nhello\n\n[Whisper 转录]\nworld".toList) = true
  ∧ containsSub whisperLabel ("[AWS Transcribe 转录]\nhello\n\n[Whisper 转录]\nworld".toList) = true
  ∧ (∃ a b, truncateTranscript ("[AWS Transcribe 转录]\nhello\n\n[Whisper 转录]\nworld".toList)
        = a ++ nlnl ++ (whisperLabel ++ b)
      ∧ a.length ≤ 60000 ∧ (whisperLabel ++ b).length ≤ 60000) :=
  ⟨by decide, by decide,
   (truncateTranscript_spec _).1 (by decide) (by decide)⟩

/-- C10 counterexample: for a key that already starts with the configured
prefix, `getFile(k)` and `getFile(PREFIX + "/" + k)` resolve to different
stored keys, so they do not address the same object. -/
theorem getFile_prefixed_key_divergence :
    resolveGetKey "meeting-minutes".toList "meeting-minutes/reports/a.json".toList
      ≠ resolveGetKey "meeting-minutes".toList
          ("meeting-minutes".toList ++ '/' :: "meeting-minutes/reports/a.json".toList) := by
  decide

/-- C10 (amended): for every key that does not already start with the
configured prefix, `getFile(k)` and `getFile(PREFIX + "/" + k)` resolve to
the same stored key, equal to the full key returned by `uploadFile(k)`;
reading back the full key returned by `uploadFile` always retrieves the
object written at that key. -/
theorem getFile_key_resolution (pfx k : List Char)
    (h : startsWithL pfx k = false) :
    resolveGetKey pfx k = uploadFullKey pfx k
  ∧ resolveGetKey pfx (uploadFullKey pfx k) = uploadFullKey pfx k := by
  constructor
  · simp [resolveGetKey, uploadFullKey, h]
  · simp [resolveGetKey, uploadFullKey, startsWithL_self_append]

/-- C10 witness: `getFile_key_resolution` applied to the report key of a
concrete meeting under the default prefix. -/
theorem getFile_key_resolution_witness :
    startsWithL "meeting-minutes".toList "reports/m1/report.json".toList = false
  ∧ (resolveGetKey "meeting-minutes".toList "reports/m1/report.json".toList
       = uploadFullKey "meeting-minutes".toList "reports/m1/report.json".toList
     ∧ resolveGetKey "meeting-minutes".toList
         (uploadFullKey "meeting-minutes".toList "reports/m1/report.json".toList)
       = uploadFullKey "meeting-minutes".toList "reports/m1/report.json".toList) :=
  ⟨by decide, getFile_key_resolution _ _ (by decide)⟩

end MM
